import Mathlib

/-!
Verification of the Euchre rule engine.

The definitions below are a shallow embedding of the game logic of the
`EuchreGame` class (src/euchre-game/public/js/euchre.js and the extended
variant src/unnamed/part_001).  Mutations of the single game object are
modelled as functions from an explicit `GameState` to a new `GameState`;
the ambient randomness consumed by the original (shuffle order, batch-size
draw) appears as explicit arguments.  DOM updates, sounds, timers and
logging are omitted: only the fields the game logic reads or writes are
modelled.
-/

set_option autoImplicit false

namespace Euchre

/-- Card suit; the source uses the four glyph strings. -/
inductive Suit where
  | spades
  | hearts
  | diamonds
  | clubs
deriving DecidableEq, Fintype

/-- Card rank; the deck holds 9, 10, J, Q, K, A of each suit (24 cards). -/
inductive Rank where
  | nine
  | ten
  | jack
  | queen
  | king
  | ace
deriving DecidableEq, Fintype

/-- Card as in `createDeck`: a rank and a suit (the derived display color
is presentation only and is not modelled). -/
structure Card where
  rank : Rank
  suit : Suit
deriving DecidableEq, Fintype

/-- Seat at the table.  The source's clockwise order is
`south → west → north → east`; teams are south/north vs east/west. -/
inductive Seat where
  | north
  | east
  | south
  | west
deriving DecidableEq, Fintype

/-- One entry of `currentTrick`: `{ player, card }`. -/
structure Play where
  player : Seat
  card : Card
deriving DecidableEq

/-- The suit of the same color as the given suit (spades↔clubs,
hearts↔diamonds); used to phrase the left-bower claims. -/
def sameColorSuit : Suit → Suit
  | .spades => .clubs
  | .clubs => .spades
  | .hearts => .diamonds
  | .diamonds => .hearts

/-- The `sameColor` test written inline at euchre.js:609-612 and
part_001:799-802/870-873: trump is compared against each suit literal, so a
null trump makes every disjunct false. -/
def sameColor (trump : Option Suit) (suit : Suit) : Prop :=
  (trump = some .spades ∧ suit = .clubs) ∨
  (trump = some .clubs ∧ suit = .spades) ∨
  (trump = some .hearts ∧ suit = .diamonds) ∨
  (trump = some .diamonds ∧ suit = .hearts)

instance (trump : Option Suit) (suit : Suit) : Decidable (sameColor trump suit) := by
  unfold sameColor; infer_instance

/-- Mirrors `getEffectiveSuit(card)` (part_001:789-809): with no trump the
raw suit is returned; the right bower and the left bower count as trump;
every other card keeps its own suit. -/
def getEffectiveSuit (trump : Option Suit) (card : Card) : Suit :=
  match trump with
  | none => card.suit
  | some t =>
    if card.rank = .jack ∧ card.suit = t then t
    else if card.rank = .jack ∧ sameColor (some t) card.suit then t
    else card.suit

/-- Mirrors `canFollowSuit(hand, leadSuit)` (part_001:817-819). -/
def canFollowSuit (trump : Option Suit) (hand : List Card) (leadSuit : Suit) : Bool :=
  hand.any fun card => getEffectiveSuit trump card == leadSuit

/-- The non-jack trump values `{A:900, K:800, Q:700, 10:600, 9:500}` of
`getCardValue`.  The jack entry is absent in the source object; the lookup
is guarded by `rank !== 'J'`, so the jack case below is unreachable. -/
def rankTrumpValue : Rank → Nat
  | .ace => 900
  | .king => 800
  | .queen => 700
  | .ten => 600
  | .nine => 500
  | .jack => 0

/-- The lead-suit values `{A:400, K:300, Q:200, J:150, 10:100, 9:50}` of
`getCardValue`. -/
def rankLeadValue : Rank → Nat
  | .ace => 400
  | .king => 300
  | .queen => 200
  | .jack => 150
  | .ten => 100
  | .nine => 50

/-- Mirrors `getCardValue(card, trump, leadSuit)` (euchre.js:602-632,
part_001:863-893).  Both trump and lead suit may be null in the source
(`getAIDealerDiscard` passes a null lead), hence the `Option` arguments;
a comparison of a card suit against a null argument is false, as in JS. -/
def getCardValue (card : Card) (trump leadSuit : Option Suit) : Nat :=
  if card.rank = .jack ∧ some card.suit = trump then 1000
  else if card.rank = .jack ∧ sameColor trump card.suit then 999
  else if some card.suit = trump ∧ card.rank ≠ .jack then rankTrumpValue card.rank
  else if some card.suit = leadSuit ∧ some card.suit ≠ trump then rankLeadValue card.rank
  else 0

/-- AI difficulty level.  The Electron menu (src/electron/main.js) offers
easy, medium, hard and expert. -/
inductive Difficulty where
  | easy
  | medium
  | hard
  | expert
deriving DecidableEq, Fintype

/-- The probability triple returned by `getAIAggressiveness`. -/
structure AISettings where
  trump1 : ℚ
  trump2 : ℚ
  playSkill : ℚ
deriving DecidableEq

/-- Mirrors `getAIAggressiveness()` (euchre.js:121-128, part_001:129-136):
a switch on the difficulty string with cases for easy, medium and hard
only; every other value — including 'expert' — takes the default branch,
which returns the medium triple. -/
def getAIAggressiveness : Difficulty → AISettings
  | .easy => ⟨0.2, 0.3, 0.3⟩
  | .medium => ⟨0.3, 0.5, 0.6⟩
  | .hard => ⟨0.4, 0.7, 0.8⟩
  | .expert => ⟨0.3, 0.5, 0.6⟩

/-- The fields of the `EuchreGame` object that the embedded game logic
reads or writes.  Nullable fields (`trump`, `currentPlayer`,
`alonePlayer`, `trumpSelectionPlayer`) are `Option`s. -/
structure GameState where
  hands : Seat → List Card
  tricks : Seat → Nat
  team1Score : Nat
  team2Score : Nat
  trump : Option Suit
  currentPlayer : Option Seat
  currentTrick : List Play
  playingAlone : Bool
  alonePlayer : Option Seat
  round : Nat
  currentDealer : Seat
  trumpSelectionRound : Nat
  passedPlayers : List Seat
  trumpSelectionPlayer : Option Seat
  trumpTurnOrder : List Seat
  canGoAlone : Bool

/-- Mirrors `getPartner(player)` (part_001:1674-1682). -/
def getPartner : Seat → Seat
  | .south => .north
  | .north => .south
  | .east => .west
  | .west => .east

/-- The next seat clockwise, i.e. `order[(order.indexOf(p) + 1) % 4]` for
the source's fixed order `['south', 'west', 'north', 'east']`. -/
def nextSeat : Seat → Seat
  | .south => .west
  | .west => .north
  | .north => .east
  | .east => .south

/-- Four seats clockwise starting from `start`; the source builds this
list by indexing `['south','west','north','east']` modulo 4. -/
def clockwiseFrom (start : Seat) : List Seat :=
  [start, nextSeat start, nextSeat (nextSeat start), nextSeat (nextSeat (nextSeat start))]

/-- The dealing (and bidding) order: the seat left of the dealer acts
first, the dealer last (`dealCards` / `startTrumpSelection`). -/
def dealOrder (dealer : Seat) : List Seat :=
  clockwiseFrom (nextSeat dealer)

/-- Mirrors `isCardPlayable(card, player)` (part_001:827-853). -/
def isCardPlayable (s : GameState) (card : Card) (player : Seat) : Bool :=
  if s.currentPlayer ≠ some player then false
  else
    match s.currentTrick with
    | [] => true
    | firstPlay :: _ =>
      let leadSuit := getEffectiveSuit s.trump firstPlay.card
      if !canFollowSuit s.trump (s.hands player) leadSuit then true
      else getEffectiveSuit s.trump card == leadSuit

/-- The winner-selection loop of `evaluateTrick` (euchre.js:638-647,
part_001:906-918): starting from the lead play, a later play replaces the
current winner only if its value is strictly greater; the source's
`highestValue` accumulator always equals the value of the current winner
and is recomputed here instead of carried. -/
def bestPlay (trump : Option Suit) (leadSuit : Suit) : Play → List Play → Play
  | best, [] => best
  | best, p :: rest =>
    if getCardValue best.card trump (some leadSuit) < getCardValue p.card trump (some leadSuit)
    then bestPlay trump leadSuit p rest
    else bestPlay trump leadSuit best rest

/-- The synchronous part of `evaluateTrick` (part_001:895-943): the lead
suit is the raw suit of the first card of the trick, the winning play is
selected by `bestPlay`, and the winner's trick counter is incremented.
Clearing the trick and advancing the turn happen later, in the deferred
`processTrickCompletion`. -/
def evaluateTrick (s : GameState) : GameState :=
  match s.currentTrick with
  | [] => s
  | firstPlay :: rest =>
    let leadSuit := firstPlay.card.suit
    let winner := bestPlay s.trump leadSuit firstPlay rest
    { s with tricks := fun q => if q = winner.player then s.tricks q + 1 else s.tricks q }

/-- Mirrors `nextPlayer()` (part_001:715-743): advance one seat clockwise,
then skip the lone player's partner.  The source is only ever called with
a non-null `currentPlayer`; the `none` case is modelled as a no-op. -/
def nextPlayer (s : GameState) : GameState :=
  match s.currentPlayer with
  | none => s
  | some p =>
    let q := nextSeat p
    let q2 := if s.playingAlone ∧ s.alonePlayer.map getPartner = some q then nextSeat q else q
    { s with currentPlayer := some q2 }

/-- The accepting tail of `playCard` (part_001:646-663): remove the card
from the hand, append the play to the trick, then either evaluate the
completed trick (3 plays when someone is alone, 4 otherwise) or advance
the turn. -/
def acceptPlay (s : GameState) (player : Seat) (card : Card) (cardIndex : Nat) : GameState :=
  let s1 := { s with
    hands := fun q => if q = player then (s.hands q).eraseIdx cardIndex else s.hands q,
    currentTrick := s.currentTrick ++ [⟨player, card⟩] }
  let expectedCards := if s1.playingAlone then 3 else 4
  if s1.currentTrick.length = expectedCards then evaluateTrick s1 else nextPlayer s1

/-- Mirrors `playCard(player, cardIndex)` (part_001:603-663).  Rejection
paths (not the current player; the lone player's partner; a south play
that violates suit-following while able to follow) return the state
unchanged — the source only shows a message and returns.  The suit check
is applied by the source to the human seat (south) only.  An
out-of-range index cannot arise from the UI (one handler per rendered
card) and is modelled as a no-op. -/
def playCard (s : GameState) (player : Seat) (cardIndex : Nat) : GameState :=
  if s.currentPlayer ≠ some player then s
  else if s.playingAlone ∧ s.alonePlayer.map getPartner = some player then s
  else
    match (s.hands player)[cardIndex]? with
    | none => s
    | some card =>
      match s.currentTrick with
      | [] => acceptPlay s player card cardIndex
      | firstPlay :: _ =>
        if player = .south then
          let leadSuit := getEffectiveSuit s.trump firstPlay.card
          if canFollowSuit s.trump (s.hands player) leadSuit ∧
              getEffectiveSuit s.trump card ≠ leadSuit then s
          else acceptPlay s player card cardIndex
        else acceptPlay s player card cardIndex

/-- Mirrors `endHand()` (euchre.js:682-759, part_001:985-1062).  Scoring
reads only the two team trick totals: with an alone declaration the
south-alone branch scores team 1 and every other lone seat is scored as
team 2 (the south-alone euchre branch's dead `points = -2` assignment is
not modelled; only the effective `team2Score += 2` is); without one, team
1's total alone decides (the `team1MadeTrump` / `team2MadeTrump` locals
are computed but never read).  If neither score reached 10 the round
advances, the alone flags reset and the deal rotates. -/
def endHand (s : GameState) : GameState :=
  let team1Tricks := s.tricks .south + s.tricks .north
  let team2Tricks := s.tricks .east + s.tricks .west
  let s1 :=
    if s.playingAlone then
      if s.alonePlayer = some .south then
        if team1Tricks = 5 then { s with team1Score := s.team1Score + 4 }
        else if team1Tricks ≥ 3 then { s with team1Score := s.team1Score + 1 }
        else { s with team2Score := s.team2Score + 2 }
      else
        if team2Tricks = 5 then { s with team2Score := s.team2Score + 4 }
        else if team2Tricks ≥ 3 then { s with team2Score := s.team2Score + 1 }
        else { s with team1Score := s.team1Score + 2 }
    else
      if team1Tricks ≥ 3 then
        if team1Tricks = 5 then { s with team1Score := s.team1Score + 2 }
        else { s with team1Score := s.team1Score + 1 }
      else { s with team2Score := s.team2Score + 2 }
  if s1.team1Score ≥ 10 ∨ s1.team2Score ≥ 10 then s1
  else { s1 with
    round := s1.round + 1,
    playingAlone := false,
    alonePlayer := none,
    currentDealer := nextSeat s1.currentDealer }

/-- Mirrors `processTrickCompletion(winner)` (part_001:945-983), the
deferred continuation of `evaluateTrick` (in euchre.js the same code is
inline in `evaluateTrick`'s timeout, lines 657-680): the trick is
cleared; if south's hand is empty the hand ends, otherwise the winner
leads next (skipping the lone player's partner).  The first component
records whether `endHand` was invoked. -/
def processTrickCompletion (s : GameState) (winner : Play) : Bool × GameState :=
  let s1 := { s with currentTrick := ([] : List Play) }
  if s1.hands .south = [] then (true, endHand s1)
  else
    let cur := winner.player
    let cur2 :=
      if s1.playingAlone ∧ s1.alonePlayer.map getPartner = some cur then nextSeat cur else cur
    (false, { s1 with currentPlayer := some cur2 })

/-- Result of `dealCards` (euchre.js:152-204, part_001:160-225): four
hands, the flipped card and the kitty. -/
structure DealResult where
  hands : Seat → List Card
  flipped : Option Card
  kitty : List Card

/-- One pass of the inner `dealOrder.forEach(pos => cards.push(deck.pop()))`
loop of `dealCards`: each listed seat in turn draws the next card.  The
deck is represented in draw order (the JS pops from the array's end, so
the next card drawn comes first here).  An exhausted deck (impossible
with 24 cards) stops the pass. -/
def dealToSeats : List Seat → List Card → (Seat → List Card) → (Seat → List Card) × List Card
  | [], deck, hands => (hands, deck)
  | _ :: _, [], hands => (hands, [])
  | q :: restSeats, c :: restDeck, hands =>
    dealToSeats restSeats restDeck fun x => if x = q then hands x ++ [c] else hands x

/-- The outer batch loop of `dealCards`: `n` passes of `dealToSeats`. -/
def dealRounds : Nat → List Seat → List Card → (Seat → List Card) → (Seat → List Card) × List Card
  | 0, _, deck, hands => (hands, deck)
  | n + 1, seats, deck, hands =>
    let step := dealToSeats seats deck hands
    dealRounds n seats step.2 step.1

/-- Mirrors `dealCards()` (euchre.js:152-204, part_001:160-225) after the
shuffle: hands are cleared, a first batch of 3 or 2 rounds (the source
draws the split with `Math.random() < 0.5`, passed here as
`firstBatchIsThree`) and a second batch of `5 - firstBatch` rounds are
dealt clockwise from the seat left of the dealer, then one card is
flipped and the remainder becomes the kitty. -/
def dealCards (deck : List Card) (dealer : Seat) (firstBatchIsThree : Bool) : DealResult :=
  let firstBatch := if firstBatchIsThree then 3 else 2
  let secondBatch := 5 - firstBatch
  let order := dealOrder dealer
  let step1 := dealRounds firstBatch order deck fun _ => []
  let step2 := dealRounds secondBatch order step1.2 step1.1
  { hands := step2.1, flipped := step2.2.head?, kitty := step2.2.tail }

/-- Multiset of all cards held across the four seats. -/
def seatsHandsSum (hands : Seat → List Card) : Multiset Card :=
  ↑(hands .south) + ↑(hands .west) + ↑(hands .north) + ↑(hands .east)

/-- The suit loop order of `createDeck`. -/
def suitsList : List Suit := [.spades, .hearts, .diamonds, .clubs]

/-- The rank loop order of `createDeck`. -/
def ranksList : List Rank := [.nine, .ten, .jack, .queen, .king, .ace]

/-- Mirrors `createDeck()` (euchre.js:130-143) before the shuffle: the 24
cards in nested loop order. -/
def createDeck : List Card :=
  suitsList.flatMap fun s => ranksList.map fun r => ⟨r, s⟩

/-- Outcome of one bidding transition: the loop continues with a new
state, every seat passed round 2 and `dealCards` re-runs (the source's
"Everyone passed - redealing" branch), or bidding has left the pass loop
with trump already set (`continueWithPartner`, which proceeds to dealer
pickup / play). -/
inductive BidStep where
  | next (s : GameState)
  | redeal
  | resolved (s : GameState)

/-- Mirrors the state changes of `startTrumpSelection()`
(euchre.js:227-251, part_001:287-311): round 1, no passes, turn order
clockwise from the seat left of the dealer, who acts first. -/
def startTrumpSelection (s : GameState) : GameState :=
  { s with
    trumpSelectionRound := 1,
    passedPlayers := [],
    trumpTurnOrder := clockwiseFrom (nextSeat s.currentDealer),
    trumpSelectionPlayer := some (nextSeat s.currentDealer) }

/-- Mirrors `nextTrumpPlayer()` (euchre.js:319-348, part_001:409-438).
The acting seat is recorded as passed; four passes end round 1 or, in
round 2, trigger the redeal; three passes in round 2 hand the turn to the
dealer ("stick the dealer"); otherwise the turn advances.  The source
only calls this while `trumpSelectionPlayer` is set; the `none` case is
modelled as a no-op. -/
def nextTrumpPlayer (s : GameState) : BidStep :=
  match s.trumpSelectionPlayer with
  | none => BidStep.next s
  | some p =>
    let currentIndex := s.trumpTurnOrder.indexOf p
    let passed := s.passedPlayers ++ [p]
    if passed.length = 4 then
      if s.trumpSelectionRound = 1 then
        BidStep.next { s with
          trumpSelectionRound := 2,
          passedPlayers := [],
          trumpSelectionPlayer := s.trumpTurnOrder[0]? }
      else BidStep.redeal
    else if s.trumpSelectionRound = 2 ∧ passed.length = 3 then
      BidStep.next { s with
        passedPlayers := passed,
        trumpSelectionPlayer := some s.currentDealer }
    else
      BidStep.next { s with
        passedPlayers := passed,
        trumpSelectionPlayer := s.trumpTurnOrder[(currentIndex + 1) % 4]? }

/-- Mirrors `passTrump()` (euchre.js:477-486, part_001:592-601), the
human Pass button: when `canGoAlone` is set the player had already chosen
trump and the press means "continue with partner" (bidding resolves);
otherwise the pass is recorded unconditionally — there is no
stick-the-dealer guard here. -/
def passTrump (s : GameState) : BidStep :=
  if s.canGoAlone then BidStep.resolved s
  else nextTrumpPlayer s

/-- Iterate `passTrump` while bidding continues; used to trace a run of
consecutive passes. -/
def iteratePasses : Nat → GameState → BidStep
  | 0, s => BidStep.next s
  | n + 1, s =>
    match passTrump s with
    | BidStep.next s2 => iteratePasses n s2
    | out => out

/-- A quiescent state as built by the constructor and `newGame`: empty
hands, zero scores, no trump, dealer south. -/
def baseState : GameState where
  hands := fun _ => []
  tricks := fun _ => 0
  team1Score := 0
  team2Score := 0
  trump := none
  currentPlayer := none
  currentTrick := []
  playingAlone := false
  alonePlayer := none
  round := 1
  currentDealer := .south
  trumpSelectionRound := 1
  passedPlayers := []
  trumpSelectionPlayer := none
  trumpTurnOrder := []
  canGoAlone := false

/-- End-of-hand state for the C1 demonstration: no alone declaration,
tricks south 1, north 0, east 3, west 1 (east-west took 4 of 5). -/
def c1DemoState : GameState :=
  { baseState with
    trump := some .hearts,
    tricks := fun q => match q with
      | .south => 1
      | .north => 0
      | .east => 3
      | .west => 1 }

/-- End-of-hand state for the C2 demonstration: north declared alone and
the south/north team took all 5 tricks (south 2, north 3). -/
def c2DemoState : GameState :=
  { baseState with
    trump := some .spades,
    playingAlone := true,
    alonePlayer := some .north,
    tricks := fun q => match q with
      | .south => 2
      | .north => 3
      | .east => 0
      | .west => 0 }

/-- Start of bidding with a human dealer (south), as `startTrumpSelection`
leaves it: round 1, turn order west, north, east, south. -/
def bidDemoStart : GameState := startTrumpSelection baseState

/-- A completed 4-play trick for the C6 witness: hearts led, spades
trump; west's jack of clubs is the left bower and wins. -/
def trickDemoState : GameState :=
  { baseState with
    trump := some .spades,
    currentPlayer := some .north,
    currentTrick :=
      [⟨.east, ⟨.ace, .hearts⟩⟩, ⟨.south, ⟨.nine, .hearts⟩⟩,
       ⟨.west, ⟨.jack, .clubs⟩⟩, ⟨.north, ⟨.ten, .diamonds⟩⟩] }

/-! ## Theorems -/

/-- C5 counterexample: the difficulty switch has no 'expert' case, so
'expert' returns the default — i.e. exactly the medium triple, not an
expert-specific one. -/
theorem getAIAggressiveness_expert_eq_medium :
    getAIAggressiveness .expert = getAIAggressiveness .medium := rfl

/-- C5 (amended): the AI policy is parameterized by a difficulty in
{easy, medium, hard, expert}; easy, medium and hard each define their own
probability triple (pairwise distinct), while 'expert' falls through to
the default branch and returns the same triple as medium, namely
trump1 = 0.3, trump2 = 0.5, playSkill = 0.6. -/
theorem getAIAggressiveness_tiers :
    getAIAggressiveness .easy = ⟨0.2, 0.3, 0.3⟩ ∧
    getAIAggressiveness .medium = ⟨0.3, 0.5, 0.6⟩ ∧
    getAIAggressiveness .hard = ⟨0.4, 0.7, 0.8⟩ ∧
    getAIAggressiveness .expert = ⟨0.3, 0.5, 0.6⟩ ∧
    getAIAggressiveness .easy ≠ getAIAggressiveness .medium ∧
    getAIAggressiveness .easy ≠ getAIAggressiveness .hard ∧
    getAIAggressiveness .medium ≠ getAIAggressiveness .hard ∧
    getAIAggressiveness .expert = getAIAggressiveness .medium := by
  refine ⟨rfl, rfl, rfl, rfl, ?_, ?_, ?_, rfl⟩ <;>
    (intro h; simp only [getAIAggressiveness, AISettings.mk.injEq] at h; norm_num at h)

/-- C1 demonstration: `endHand` never consults which team called trump.
In `c1DemoState` the east-west team (team 2) is the bidder and took 4 of
the 5 tricks, so the claim awards it exactly 1 point; the code only looks
at team 1's total (1 trick < 3), takes the "euchred" branch and adds 2
points to team 2. -/
theorem endHand_ignores_bidder :
    (endHand c1DemoState).team1Score = 0 ∧ (endHand c1DemoState).team2Score = 2 := by
  constructor <;> rfl

/-- C2 demonstration: in `c2DemoState` north is the lone player and
north's team took all 5 tricks, so the claim awards team 1 exactly 4
points; the code's non-south alone branch scores the hand for team 2
(team2Tricks = 0 < 3, "euchred") and adds only 2 points to team 1. -/
theorem endHand_northAlone_misscored :
    (endHand c2DemoState).team1Score = 2 ∧ (endHand c2DemoState).team2Score = 0 := by
  constructor <;> rfl

/-- C3 demonstration: with a human dealer (south) a pass is accepted even
after the three non-dealer seats have passed in round 2, and the
all-pass redeal branch is reached on the 8th pass.  After 7 passes the
bidding sits exactly at the stuck-dealer point (round 2, three passes
recorded, the dealer to act, `canGoAlone` false), and one further
`passTrump` yields `BidStep.redeal`. -/
theorem stuck_dealer_pass_reaches_redeal :
    iteratePasses 8 bidDemoStart = BidStep.redeal ∧
    ∃ s7, iteratePasses 7 bidDemoStart = BidStep.next s7 ∧
      s7.trumpSelectionRound = 2 ∧
      s7.passedPlayers.length = 3 ∧
      s7.trumpSelectionPlayer = some s7.currentDealer ∧
      s7.currentDealer = .south ∧
      s7.canGoAlone = false ∧
      passTrump s7 = BidStep.redeal := by
  exact ⟨rfl, _, rfl, rfl, rfl, rfl, rfl, rfl, rfl⟩

/-- C7: for any trump suit and any lead suit, `getCardValue` ranks the
right bower above the left bower above A, K, Q, 10, 9 of trump, and every
card whose effective suit is trump strictly exceeds every card whose
effective suit is not trump. -/
theorem getCardValue_bower_order :
    ∀ (t : Suit) (lead : Option Suit),
      (getCardValue ⟨.jack, t⟩ (some t) lead >
          getCardValue ⟨.jack, sameColorSuit t⟩ (some t) lead ∧
        getCardValue ⟨.jack, sameColorSuit t⟩ (some t) lead >
          getCardValue ⟨.ace, t⟩ (some t) lead ∧
        getCardValue ⟨.ace, t⟩ (some t) lead > getCardValue ⟨.king, t⟩ (some t) lead ∧
        getCardValue ⟨.king, t⟩ (some t) lead > getCardValue ⟨.queen, t⟩ (some t) lead ∧
        getCardValue ⟨.queen, t⟩ (some t) lead > getCardValue ⟨.ten, t⟩ (some t) lead ∧
        getCardValue ⟨.ten, t⟩ (some t) lead > getCardValue ⟨.nine, t⟩ (some t) lead) ∧
      ∀ c c2 : Card, getEffectiveSuit (some t) c = t → getEffectiveSuit (some t) c2 ≠ t →
        getCardValue c2 (some t) lead < getCardValue c (some t) lead := by decide

/-- C7 witness at trump spades, no lead: the 9 of trump beats an off-suit
ace. -/
theorem getCardValue_bower_order_witness :
    getCardValue ⟨.ace, .hearts⟩ (some .spades) none <
      getCardValue ⟨.nine, .spades⟩ (some .spades) none :=
  (getCardValue_bower_order .spades none).2 ⟨.nine, .spades⟩ ⟨.ace, .hearts⟩
    (by decide) (by decide)

/-- C10: the trick-completion continuation invokes `endHand` exactly when
south's hand is empty, and the decision reads no other seat's hand: two
states agreeing on south's hand (everything else arbitrary) agree on
whether the hand ends. -/
theorem processTrickCompletion_south_only :
    (∀ (s : GameState) (w : Play),
        (processTrickCompletion s w).1 = true ↔ s.hands .south = []) ∧
    (∀ (s1 s2 : GameState) (w1 w2 : Play),
        s1.hands .south = s2.hands .south →
        (processTrickCompletion s1 w1).1 = (processTrickCompletion s2 w2).1) := by
  have h1 : ∀ (s : GameState) (w : Play),
      (processTrickCompletion s w).1 = true ↔ s.hands .south = [] := by
    intro s w
    simp only [processTrickCompletion]
    split_ifs with h <;> simp [h]
  refine ⟨h1, fun s1 s2 w1 w2 h => ?_⟩
  by_cases he : s1.hands .south = []
  · rw [(h1 s1 w1).mpr he, ((h1 s2 w2).mpr (h ▸ he)).symm]
  · have h2 : ¬s2.hands .south = [] := h ▸ he
    cases hb1 : (processTrickCompletion s1 w1).1
    · cases hb2 : (processTrickCompletion s2 w2).1
      · rfl
      · exact absurd ((h1 s2 w2).mp hb2) h2
    · exact absurd ((h1 s1 w1).mp hb1) he

/-- C10 witness: in `baseState` (south holds no cards) the continuation
ends the hand. -/
theorem processTrickCompletion_south_only_witness :
    (processTrickCompletion baseState ⟨.south, ⟨.nine, .spades⟩⟩).1 = true :=
  (processTrickCompletion_south_only.1 baseState ⟨.south, ⟨.nine, .spades⟩⟩).mpr rfl

/-- When a card's own suit is the lead suit its value is positive: the
lead play of a trick never scores 0. -/
theorem getCardValue_lead_pos :
    ∀ (trump : Option Suit) (c : Card), 0 < getCardValue c trump (some c.suit) := by decide

/-- Two distinct cards never share a positive value under a fixed trump
and lead: positive values determine the card. -/
theorem getCardValue_pos_inj :
    ∀ (trump : Option Suit) (lead : Suit) (c1 c2 : Card),
      getCardValue c1 trump (some lead) = getCardValue c2 trump (some lead) →
      0 < getCardValue c1 trump (some lead) → c1 = c2 := by decide

/-- The play selected by the `evaluateTrick` loop belongs to the trick. -/
theorem bestPlay_mem (trump : Option Suit) (lead : Suit) (best : Play) (l : List Play) :
    bestPlay trump lead best l ∈ best :: l := by
  induction l generalizing best with
  | nil => simp [bestPlay]
  | cons p rest ih =>
    rw [bestPlay]
    split_ifs with h
    · have h1 := ih p
      simp only [List.mem_cons] at h1 ⊢
      tauto
    · have h1 := ih best
      simp only [List.mem_cons] at h1 ⊢
      tauto

/-- The play selected by the `evaluateTrick` loop attains the maximal
card value over the trick. -/
theorem bestPlay_le (trump : Option Suit) (lead : Suit) (best : Play) (l : List Play) :
    ∀ q ∈ best :: l,
      getCardValue q.card trump (some lead) ≤
        getCardValue (bestPlay trump lead best l).card trump (some lead) := by
  induction l generalizing best with
  | nil =>
    intro q hq
    simp only [List.mem_cons, List.not_mem_nil, or_false] at hq
    subst hq
    simp [bestPlay]
  | cons p rest ih =>
    intro q hq
    rw [bestPlay]
    split_ifs with h
    · rcases List.mem_cons.mp hq with rfl | hq2
      · exact le_trans (le_of_lt h) (ih p p (List.mem_cons_self p rest))
      · rcases List.mem_cons.mp hq2 with rfl | hq3
        · exact ih q q (List.mem_cons_self q rest)
        · exact ih p q (List.mem_cons_of_mem p hq3)
    · rcases List.mem_cons.mp hq with rfl | hq2
      · exact ih q q (List.mem_cons_self q rest)
      · rcases List.mem_cons.mp hq2 with rfl | hq3
        · exact le_trans (le_of_not_lt h) (ih best best (List.mem_cons_self best rest))
        · exact ih best q (List.mem_cons_of_mem best hq3)

/-- C6: for a non-empty trick of pairwise-distinct cards, `evaluateTrick`
takes the lead suit to be the raw suit of the first play's card, the
selected winner is a play of the trick attaining the maximum card value,
that maximum is attained by no other play, and exactly the winner's trick
counter grows by one. -/
theorem evaluateTrick_unique_winner (s : GameState) (firstPlay : Play) (rest : List Play)
    (htrick : s.currentTrick = firstPlay :: rest)
    (hnodup : (s.currentTrick.map Play.card).Nodup) :
    ∃ w ∈ s.currentTrick,
      (∀ p ∈ s.currentTrick,
          getCardValue p.card s.trump (some firstPlay.card.suit) ≤
            getCardValue w.card s.trump (some firstPlay.card.suit)) ∧
      (∀ p ∈ s.currentTrick, p ≠ w →
          getCardValue p.card s.trump (some firstPlay.card.suit) <
            getCardValue w.card s.trump (some firstPlay.card.suit)) ∧
      (evaluateTrick s).tricks w.player = s.tricks w.player + 1 ∧
      ∀ q : Seat, q ≠ w.player → (evaluateTrick s).tricks q = s.tricks q := by
  refine ⟨bestPlay s.trump firstPlay.card.suit firstPlay rest, ?_, ?_, ?_, ?_, ?_⟩
  · rw [htrick]
    exact bestPlay_mem s.trump firstPlay.card.suit firstPlay rest
  · intro p hp
    rw [htrick] at hp
    exact bestPlay_le s.trump firstPlay.card.suit firstPlay rest p hp
  · intro p hp hne
    have hle := bestPlay_le s.trump firstPlay.card.suit firstPlay rest p (htrick ▸ hp)
    refine lt_of_le_of_ne hle fun heq => hne ?_
    have hwpos : 0 < getCardValue
        (bestPlay s.trump firstPlay.card.suit firstPlay rest).card s.trump
        (some firstPlay.card.suit) :=
      lt_of_lt_of_le (getCardValue_lead_pos s.trump firstPlay.card)
        (bestPlay_le s.trump firstPlay.card.suit firstPlay rest firstPlay
          (List.mem_cons_self firstPlay rest))
    have hppos : 0 < getCardValue p.card s.trump (some firstPlay.card.suit) := heq ▸ hwpos
    have hcardeq := getCardValue_pos_inj s.trump firstPlay.card.suit p.card
      (bestPlay s.trump firstPlay.card.suit firstPlay rest).card heq hppos
    exact List.inj_on_of_nodup_map hnodup hp
      (htrick ▸ bestPlay_mem s.trump firstPlay.card.suit firstPlay rest) hcardeq
  · simp only [evaluateTrick, htrick]
    simp
  · intro q hq
    simp only [evaluateTrick, htrick]
    simp [hq]

/-- C6 witness: in `trickDemoState` (spades trump, ace of hearts led) the
left bower played by west uniquely wins and only west's counter grows. -/
theorem evaluateTrick_unique_winner_witness :
    ∃ w ∈ trickDemoState.currentTrick,
      (∀ p ∈ trickDemoState.currentTrick,
          getCardValue p.card trickDemoState.trump (some Suit.hearts) ≤
            getCardValue w.card trickDemoState.trump (some Suit.hearts)) ∧
      (∀ p ∈ trickDemoState.currentTrick, p ≠ w →
          getCardValue p.card trickDemoState.trump (some Suit.hearts) <
            getCardValue w.card trickDemoState.trump (some Suit.hearts)) ∧
      (evaluateTrick trickDemoState).tricks w.player = trickDemoState.tricks w.player + 1 ∧
      ∀ q : Seat, q ≠ w.player →
        (evaluateTrick trickDemoState).tricks q = trickDemoState.tricks q :=
  evaluateTrick_unique_winner trickDemoState ⟨.east, ⟨.ace, .hearts⟩⟩
    [⟨.south, ⟨.nine, .hearts⟩⟩, ⟨.west, ⟨.jack, .clubs⟩⟩, ⟨.north, ⟨.ten, .diamonds⟩⟩]
    rfl (by decide)

/-- Unfolding of `canFollowSuit`: the hand holds a card of the lead's
effective suit. -/
theorem canFollowSuit_iff (trump : Option Suit) (hand : List Card) (lead : Suit) :
    canFollowSuit trump hand lead = true ↔ ∃ c ∈ hand, getEffectiveSuit trump c = lead := by
  simp [canFollowSuit, List.any_eq_true, beq_iff_eq]

/-- C4: legality and rejection of card plays.  On the acting seat's turn,
`isCardPlayable` accepts every card when the trick is empty and otherwise
accepts a card iff its effective suit equals the lead's effective suit or
the hand holds no card of that effective suit.  Each rejected `playCard`
attempt — out of turn, the lone player's sitting-out partner, or a
suit-following violation — returns the state unchanged (hands, trick,
trick counts and scores included). -/
theorem isCardPlayable_playCard_spec :
    (∀ (s : GameState) (card : Card) (player : Seat),
        s.currentPlayer = some player → s.currentTrick = [] →
        isCardPlayable s card player = true) ∧
    (∀ (s : GameState) (card : Card) (player : Seat) (firstPlay : Play) (rest : List Play),
        s.currentPlayer = some player → s.currentTrick = firstPlay :: rest →
        (isCardPlayable s card player = true ↔
          getEffectiveSuit s.trump card = getEffectiveSuit s.trump firstPlay.card ∨
          ∀ c ∈ s.hands player,
            getEffectiveSuit s.trump c ≠ getEffectiveSuit s.trump firstPlay.card)) ∧
    (∀ (s : GameState) (player : Seat) (i : Nat),
        s.currentPlayer ≠ some player → playCard s player i = s) ∧
    (∀ (s : GameState) (player : Seat) (i : Nat),
        s.playingAlone = true → s.alonePlayer.map getPartner = some player →
        playCard s player i = s) ∧
    (∀ (s : GameState) (i : Nat) (card : Card) (firstPlay : Play) (rest : List Play),
        s.currentTrick = firstPlay :: rest →
        (s.hands Seat.south)[i]? = some card →
        canFollowSuit s.trump (s.hands Seat.south)
          (getEffectiveSuit s.trump firstPlay.card) = true →
        getEffectiveSuit s.trump card ≠ getEffectiveSuit s.trump firstPlay.card →
        playCard s Seat.south i = s) := by
  refine ⟨?_, ?_, ?_, ?_, ?_⟩
  · intro s card player h1 h2
    simp [isCardPlayable, h1, h2]
  · intro s card player firstPlay rest h1 h2
    simp only [isCardPlayable, h1, h2]
    by_cases hcf : canFollowSuit s.trump (s.hands player)
        (getEffectiveSuit s.trump firstPlay.card) = true
    · have hex := (canFollowSuit_iff s.trump (s.hands player)
        (getEffectiveSuit s.trump firstPlay.card)).mp hcf
      simp only [hcf, ne_eq, not_true_eq_false, if_neg, Bool.not_true, Bool.false_eq_true,
        if_false, beq_iff_eq]
      constructor
      · intro h
        exact Or.inl h
      · rintro (h | h)
        · exact h
        · obtain ⟨c, hc, hc2⟩ := hex
          exact absurd hc2 (h c hc)
    · have hall : ∀ c ∈ s.hands player,
          getEffectiveSuit s.trump c ≠ getEffectiveSuit s.trump firstPlay.card := by
        intro c hc
        exact fun he => hcf ((canFollowSuit_iff _ _ _).mpr ⟨c, hc, he⟩)
      rw [Bool.not_eq_true] at hcf
      constructor
      · intro _
        exact Or.inr hall
      · intro _
        simp [hcf]
  · intro s player i h
    simp [playCard, h]
  · intro s player i h1 h2
    by_cases hcp : s.currentPlayer = some player
    · simp [playCard, hcp, h1, h2]
    · simp [playCard, hcp]
  · intro s i card firstPlay rest htrick hget hcf hne
    by_cases hcp : s.currentPlayer = some Seat.south
    · by_cases hal : s.playingAlone = true ∧ s.alonePlayer.map getPartner = some Seat.south
      · simp [playCard, hal.1, hal.2]
      · simp [playCard, hcp, hal, hget, htrick, hcf, hne]
    · simp [playCard, hcp]

/-- C4 witness: in `trickDemoState` it is north's turn; north may play
any card (diamonds queen follows nothing: north holds no cards, so the
hand cannot follow) and a play attempt by east (out of turn) leaves the
state unchanged. -/
theorem isCardPlayable_playCard_spec_witness :
    isCardPlayable trickDemoState ⟨Rank.queen, Suit.diamonds⟩ Seat.north = true ∧
    playCard trickDemoState Seat.east 0 = trickDemoState :=
  ⟨(isCardPlayable_playCard_spec.2.1 trickDemoState ⟨Rank.queen, Suit.diamonds⟩ Seat.north
      ⟨.east, ⟨.ace, .hearts⟩⟩
      [⟨.south, ⟨.nine, .hearts⟩⟩, ⟨.west, ⟨.jack, .clubs⟩⟩, ⟨.north, ⟨.ten, .diamonds⟩⟩]
      rfl rfl).mpr (Or.inr (by simp [trickDemoState, baseState])),
    isCardPlayable_playCard_spec.2.2.1 trickDemoState Seat.east 0 (by decide)⟩

/-- One dealing pass consumes exactly one card per listed seat. -/
theorem dealToSeats_deck (seats : List Seat) :
    ∀ (deck : List Card) (hands : Seat → List Card), seats.length ≤ deck.length →
      (dealToSeats seats deck hands).2 = deck.drop seats.length := by
  induction seats with
  | nil => intro deck hands _; simp [dealToSeats]
  | cons q rest ih =>
    intro deck hands hlen
    cases deck with
    | nil => simp at hlen
    | cons c d =>
      simp only [dealToSeats, List.length_cons, List.drop_succ_cons]
      exact ih d _ (by simpa using hlen)

/-- One dealing pass grows each hand by that seat's multiplicity in the
seat list. -/
theorem dealToSeats_handLen (seats : List Seat) :
    ∀ (deck : List Card) (hands : Seat → List Card), seats.length ≤ deck.length →
      ∀ q, ((dealToSeats seats deck hands).1 q).length = (hands q).length + seats.count q := by
  induction seats with
  | nil => intro deck hands _ q; simp [dealToSeats]
  | cons p rest ih =>
    intro deck hands hlen q
    cases deck with
    | nil => simp at hlen
    | cons c d =>
      rw [dealToSeats, ih d _ (by simpa using hlen) q]
      by_cases hq : q = p
      · subst hq
        simp [List.count_cons]
        omega
      · simp [hq, List.count_cons]

/-- Appending one card to one seat's hand adds that card to the combined
multiset of hands. -/
theorem seatsHandsSum_update (hands : Seat → List Card) (q : Seat) (c : Card) :
    seatsHandsSum (fun x => if x = q then hands x ++ [c] else hands x) =
      seatsHandsSum hands + {c} := by
  cases q <;>
    simp [seatsHandsSum, ← Multiset.coe_add] <;>
    abel

/-- One dealing pass conserves cards: hands plus remaining deck is
unchanged as a multiset. -/
theorem dealToSeats_multiset (seats : List Seat) :
    ∀ (deck : List Card) (hands : Seat → List Card), seats.length ≤ deck.length →
      seatsHandsSum (dealToSeats seats deck hands).1 + ↑(dealToSeats seats deck hands).2 =
        seatsHandsSum hands + ↑deck := by
  induction seats with
  | nil => intro deck hands _; simp [dealToSeats]
  | cons p rest ih =>
    intro deck hands hlen
    cases deck with
    | nil => simp at hlen
    | cons c d =>
      rw [dealToSeats, ih d _ (by simpa using hlen), seatsHandsSum_update,
        ← Multiset.cons_coe, ← Multiset.singleton_add]
      abel

/-- Two successive batches of rounds equal one combined run of rounds. -/
theorem dealRounds_add (n m : Nat) (seats : List Seat) :
    ∀ (deck : List Card) (hands : Seat → List Card),
      dealRounds m seats (dealRounds n seats deck hands).2 (dealRounds n seats deck hands).1 =
        dealRounds (n + m) seats deck hands := by
  induction n with
  | zero => intro deck hands; simp [dealRounds]
  | succ n ih =>
    intro deck hands
    have hstep : dealRounds (n + 1) seats deck hands =
        dealRounds n seats (dealToSeats seats deck hands).2 (dealToSeats seats deck hands).1 := by
      simp [dealRounds]
    rw [hstep, ih]
    have harith : n + 1 + m = n + m + 1 := by omega
    rw [harith]
    simp [dealRounds]

/-- After `n` rounds the remaining deck is the original deck with
`n * seats.length` cards dropped. -/
theorem dealRounds_deck (n : Nat) (seats : List Seat) :
    ∀ (deck : List Card) (hands : Seat → List Card), n * seats.length ≤ deck.length →
      (dealRounds n seats deck hands).2 = deck.drop (n * seats.length) := by
  induction n with
  | zero => intro deck hands _; simp [dealRounds]
  | succ n ih =>
    intro deck hands hlen
    rw [Nat.succ_mul] at hlen
    have hone : seats.length ≤ deck.length := le_trans (Nat.le_add_left _ _) hlen
    have hrest : n * seats.length ≤ ((dealToSeats seats deck hands).2).length := by
      rw [dealToSeats_deck seats deck hands hone, List.length_drop]
      omega
    simp only [dealRounds]
    rw [ih _ _ hrest, dealToSeats_deck seats deck hands hone, List.drop_drop]
    congr 1
    rw [Nat.succ_mul]
    omega

/-- After `n` rounds each seat holds `n` times its multiplicity in the
seat list more cards. -/
theorem dealRounds_handLen (n : Nat) (seats : List Seat) :
    ∀ (deck : List Card) (hands : Seat → List Card), n * seats.length ≤ deck.length →
      ∀ q, ((dealRounds n seats deck hands).1 q).length =
        (hands q).length + n * seats.count q := by
  induction n with
  | zero => intro deck hands _ q; simp [dealRounds]
  | succ n ih =>
    intro deck hands hlen q
    rw [Nat.succ_mul] at hlen
    have hone : seats.length ≤ deck.length := le_trans (Nat.le_add_left _ _) hlen
    have hrest : n * seats.length ≤ ((dealToSeats seats deck hands).2).length := by
      rw [dealToSeats_deck seats deck hands hone, List.length_drop]
      omega
    simp only [dealRounds]
    rw [ih _ _ hrest q, dealToSeats_handLen seats deck hands hone q, Nat.succ_mul]
    ring

/-- Rounds of dealing conserve cards as a multiset. -/
theorem dealRounds_multiset (n : Nat) (seats : List Seat) :
    ∀ (deck : List Card) (hands : Seat → List Card), n * seats.length ≤ deck.length →
      seatsHandsSum (dealRounds n seats deck hands).1 + ↑(dealRounds n seats deck hands).2 =
        seatsHandsSum hands + ↑deck := by
  induction n with
  | zero => intro deck hands _; simp [dealRounds]
  | succ n ih =>
    intro deck hands hlen
    rw [Nat.succ_mul] at hlen
    have hone : seats.length ≤ deck.length := le_trans (Nat.le_add_left _ _) hlen
    have hrest : n * seats.length ≤ ((dealToSeats seats deck hands).2).length := by
      rw [dealToSeats_deck seats deck hands hone, List.length_drop]
      omega
    simp only [dealRounds]
    rw [ih _ _ hrest, dealToSeats_multiset seats deck hands hone]

/-- Both batch splits (3-then-2 and 2-then-3) amount to five rounds of
one card per seat. -/
theorem dealCards_eq_five_rounds (deck : List Card) (dealer : Seat) (b : Bool) :
    dealCards deck dealer b =
      { hands := (dealRounds 5 (dealOrder dealer) deck fun _ => []).1,
        flipped := (dealRounds 5 (dealOrder dealer) deck fun _ => []).2.head?,
        kitty := (dealRounds 5 (dealOrder dealer) deck fun _ => []).2.tail } := by
  cases b <;> simp [dealCards, dealRounds_add]

/-- C8: for every 24-card deck, every dealer and either batch split, each
seat ends with exactly 5 cards, a flipped card exists, the kitty has 3
cards, and the four hands plus the flipped card plus the kitty are
exactly the deck as a multiset — no card duplicated or omitted. -/
theorem dealCards_spec (deck : List Card) (dealer : Seat) (b : Bool)
    (hlen : deck.length = 24) :
    (∀ q : Seat, ((dealCards deck dealer b).hands q).length = 5) ∧
    ∃ f kitty,
      (dealCards deck dealer b).flipped = some f ∧
      (dealCards deck dealer b).kitty = kitty ∧
      kitty.length = 3 ∧
      seatsHandsSum (dealCards deck dealer b).hands + (f ::ₘ (↑kitty : Multiset Card)) =
        ↑deck := by
  have hL : (dealOrder dealer).length = 4 := by cases dealer <;> rfl
  have hcount : ∀ q : Seat, (dealOrder dealer).count q = 1 := by
    intro q; cases dealer <;> cases q <;> rfl
  have hbound : 5 * (dealOrder dealer).length ≤ deck.length := by
    rw [hL, hlen]; omega
  have hdeck2 : (dealRounds 5 (dealOrder dealer) deck fun _ => []).2 = deck.drop 20 := by
    rw [dealRounds_deck 5 (dealOrder dealer) deck _ hbound, hL]
  have hlen20 : (deck.drop 20).length = 4 := by rw [List.length_drop, hlen]
  rcases hcons : deck.drop 20 with _ | ⟨f, kitty⟩
  · rw [hcons] at hlen20; simp at hlen20
  have hkitty : kitty.length = 3 := by
    rw [hcons] at hlen20; simpa using hlen20
  have hhand : ∀ q : Seat,
      ((dealRounds 5 (dealOrder dealer) deck fun _ => []).1 q).length = 5 := by
    intro q
    rw [dealRounds_handLen 5 (dealOrder dealer) deck _ hbound q, hcount q]
    rfl
  have hms := dealRounds_multiset 5 (dealOrder dealer) deck (fun _ => []) hbound
  rw [hdeck2, hcons] at hms
  have h0 : seatsHandsSum (fun _ => ([] : List Card)) = 0 := rfl
  rw [h0, zero_add] at hms
  rw [dealCards_eq_five_rounds]
  refine ⟨hhand, f, kitty, ?_, ?_, hkitty, ?_⟩
  · rw [hdeck2, hcons]; rfl
  · rw [hdeck2, hcons]; rfl
  · rw [Multiset.cons_coe]
    exact hms

/-- C8 witness: dealing the freshly created 24-card deck with dealer
south and a 3-then-2 split. -/
theorem dealCards_spec_witness :
    (∀ q : Seat, ((dealCards createDeck .south true).hands q).length = 5) ∧
    ∃ f kitty,
      (dealCards createDeck .south true).flipped = some f ∧
      (dealCards createDeck .south true).kitty = kitty ∧
      kitty.length = 3 ∧
      seatsHandsSum (dealCards createDeck .south true).hands +
          (f ::ₘ (↑kitty : Multiset Card)) = ↑createDeck :=
  dealCards_spec createDeck .south true (by rfl)

end Euchre
